import Mathlib

/-!
# Verification development for the DAWN voice-assistant core

A shallow embedding, in Lean 4, of the string processing, command
compilation/dispatch, bus routing, TTS playback control and state publishing
logic of the DAWN source tree (`src/`), together with theorems settling the
specified properties against that embedding.

Strings are embedded as `List Char` (C strings are byte sequences; all the
inputs of interest are ASCII).  Machine floating point (`double`) values that
carry exact decimal/word arithmetic are embedded as `ℚ`; the one square root
(RMS) is stated over `ℝ`.
-/

namespace Dawn

/-! ## Basic C string helpers -/

/-- Remainder of `s` after the first occurrence of `sub` (the libc `strstr`
pointer advanced past the match), `none` when `sub` does not occur.  This is
`extract_remaining_after_substring` from `text_to_command_nuevo.c` (which
returns `pos + strlen(substring)` on a hit and `NULL` otherwise). -/
def strstrRem (s sub : List Char) : Option (List Char) :=
  match s with
  | [] => if sub.isPrefixOf ([] : List Char) then some [] else none
  | c :: t =>
    if sub.isPrefixOf (c :: t) then some ((c :: t).drop sub.length)
    else strstrRem t sub

/-- `'*'`-and-`'?'` glob matching, with explicit fuel so the definition
computes by kernel reduction.  `fnmatch` (libc, flags = 0) is an external
collaborator of the program; the patterns the program builds contain only
literal characters and `'*'` wildcards (no bracket classes or escapes), for
which this is the standard fnmatch semantics. -/
def globMatchFuel : Nat → List Char → List Char → Bool
  | 0, _, _ => false
  | _ + 1, [], s => s.isEmpty
  | f + 1, c :: p, s =>
    if c = '*' then
      globMatchFuel f p s ||
        (match s with
         | [] => false
         | _ :: t => globMatchFuel f (c :: p) t)
    else
      match s with
      | [] => false
      | d :: t => (c = '?' || c = d) && globMatchFuel f p t

/-- Glob matching of pattern `p` against the whole string `s`.  The fuel
`p.length + s.length + 1` strictly exceeds the number of recursion steps
(each step shortens the pattern or the subject), so it is never exhausted. -/
def globMatch (p s : List Char) : Bool :=
  globMatchFuel (p.length + s.length + 1) p s

/-- `searchString` from `text_to_command_nuevo.c`: appends one `'*'` to the
template and runs `fnmatch` over the whole second string; returns 1 on a
match and 0 otherwise (the -1 error cases — `NULL` arguments or allocation
failure — do not arise in the embedding). -/
def searchString (templateStr secondStr : List Char) : Int :=
  if globMatch (templateStr ++ ['*']) secondStr then 1 else 0

/-! ## `replaceWithValues` (`text_to_command_nuevo.c`) -/

/-- The replacement the `replaceWithValues` loop writes for the placeholder
text `ph` found between two `'%'` signs.  The C code compares with
`strncmp(placeholder, "device_name", placeholderLen)` and
`strncmp(placeholder, "value", placeholderLen)`, i.e. it tests whether the
placeholder text is a *prefix* of `"device_name"` resp. `"value"`; when
neither matches, nothing at all is written (the placeholder is dropped).
`deviceName` and `value` are non-`NULL` at every call site, so the embedding
takes them as plain lists. -/
def placeholderSubst (ph dev val : List Char) : List Char :=
  if ph.isPrefixOf "device_name".toList then dev
  else if ph.isPrefixOf "value".toList then val
  else []

/-- Termination helper for `replaceWithValues`. -/
theorem len_tail_dropWhile_lt (p : Char → Bool) (l : List Char) :
    (l.dropWhile p).length - 1 < l.length + 1 := by
  have h1 : (l.dropWhile p).length ≤ l.length := (List.dropWhile_suffix _).length_le
  omega

/-- `replaceWithValues(templateStr, deviceName, value)`: copies the template,
substituting each `%…%` placeholder via `placeholderSubst`.  On a `'%'` the C
loop scans to the next `'%'` (here: `takeWhile`/`dropWhile`); a `'%'` that is
never closed makes the loop consume the rest of the template writing nothing
more, hence the `[]` in the unterminated (`rest2.isEmpty`) case. -/
def replaceWithValues (t dev val : List Char) : List Char :=
  match t with
  | [] => []
  | c :: rest =>
    if c = '%' then
      let rest2 := rest.dropWhile (· ≠ '%')
      if rest2.isEmpty then []
      else
        placeholderSubst (rest.takeWhile (· ≠ '%')) dev val ++
          replaceWithValues rest2.tail dev val
    else
      c :: replaceWithValues rest dev val
  termination_by t.length
  decreasing_by
  all_goals simp_wf
  · exact len_tail_dropWhile_lt _ _

/-- A `'%'`-free prefix of the template is copied verbatim. -/
theorem replaceWithValues_pfree_append (pre rest dev val : List Char)
    (h : ∀ c ∈ pre, c ≠ '%') :
    replaceWithValues (pre ++ rest) dev val = pre ++ replaceWithValues rest dev val := by
  induction pre with
  | nil => simp
  | cons c pre ih =>
    have hc : c ≠ '%' := h c (by simp)
    rw [List.cons_append, replaceWithValues]
    simp only [if_neg hc]
    rw [ih fun d hd => h d (by simp [hd])]
    simp

theorem takeWhile_pfree (p rest : List Char) (h : ∀ c ∈ p, c ≠ '%') :
    (p ++ '%' :: rest).takeWhile (· ≠ '%') = p := by
  induction p with
  | nil => simp
  | cons c p ih =>
    have hc : c ≠ '%' := h c (by simp)
    have ih2 := ih fun d hd => h d (by simp [hd])
    simp only [List.cons_append, List.takeWhile_cons]
    simp [hc]
    simpa using ih2

theorem dropWhile_pfree (p rest : List Char) (h : ∀ c ∈ p, c ≠ '%') :
    (p ++ '%' :: rest).dropWhile (· ≠ '%') = '%' :: rest := by
  induction p with
  | nil => simp
  | cons c p ih =>
    have hc : c ≠ '%' := h c (by simp)
    have ih2 := ih fun d hd => h d (by simp [hd])
    simp only [List.cons_append, List.dropWhile_cons]
    simp [hc]
    simpa using ih2

/-- A closed `%…%` placeholder whose text is `'%'`-free is rewritten by
`placeholderSubst` and processing continues after the closing `'%'`. -/
theorem replaceWithValues_placeholder (ph rest dev val : List Char)
    (h : ∀ c ∈ ph, c ≠ '%') :
    replaceWithValues ('%' :: (ph ++ '%' :: rest)) dev val =
      placeholderSubst ph dev val ++ replaceWithValues rest dev val := by
  rw [replaceWithValues]
  simp only [if_pos rfl, dropWhile_pfree ph rest h, takeWhile_pfree ph rest h]
  simp

/-- A `'%'`-free template is copied unchanged. -/
theorem replaceWithValues_pfree (t dev val : List Char) (h : ∀ c ∈ t, c ≠ '%') :
    replaceWithValues t dev val = t := by
  have h1 := replaceWithValues_pfree_append t [] dev val h
  rw [replaceWithValues] at h1
  simpa using h1

/-! ## Bus router (`mosquitto_comms.c` / `mosquitto_comms.h`) -/

/-- `deviceTypeStrings` from `mosquitto_comms.h`: one string per member of the
`deviceType` enumeration, in enumeration order. -/
def deviceTypeStrings : List (List Char) :=
  ["audio playback device".toList,
   "audio capture device".toList,
   "text to speech".toList,
   "date".toList,
   "time".toList,
   "music".toList,
   "voice amplifier".toList,
   "shutdown alpha bravo charlie".toList,
   "viewing".toList,
   "volume".toList,
   "local llm".toList,
   "cloud llm".toList]

/-- `MAX_DEVICE_TYPES`, the final member of the `deviceType` enumeration in
`mosquitto_comms.h` (12): the bound of the dispatch loop in
`parseJsonCommandandExecute`. -/
def MAX_DEVICE_TYPES : Nat := 12

/-- The callback functions registered in `deviceCallbackArray`
(`mosquitto_comms.c`), identified by name. -/
inductive DeviceCallbackFn
  | setPcmPlaybackDevice
  | setPcmCaptureDevice
  | textToSpeechCallback
  | dateCallback
  | timeCallback
  | musicCallback
  | voiceAmplifierCallback
  | shutdownCallback
  | viewingCallback
  | volumeCallback
  deriving DecidableEq

/-- `deviceCallbackArray` from `mosquitto_comms.c`: the static initializer
lists exactly ten `{deviceType, callback}` pairs — there are no entries for
`LOCAL_LLM_SWITCH` or `CLOUD_LLM_SWITCH` (the header declares
`localLLMCallback`/`cloudLLMCallback` but nothing defines or registers
them), so the array length is 10. -/
def deviceCallbackArray : List DeviceCallbackFn :=
  [DeviceCallbackFn.setPcmPlaybackDevice,
   DeviceCallbackFn.setPcmCaptureDevice,
   DeviceCallbackFn.textToSpeechCallback,
   DeviceCallbackFn.dateCallback,
   DeviceCallbackFn.timeCallback,
   DeviceCallbackFn.musicCallback,
   DeviceCallbackFn.voiceAmplifierCallback,
   DeviceCallbackFn.shutdownCallback,
   DeviceCallbackFn.viewingCallback,
   DeviceCallbackFn.volumeCallback]

/-- The dispatch loop of `parseJsonCommandandExecute`: for each
`i < MAX_DEVICE_TYPES`, if the message's `device` string equals
`deviceTypeStrings[i]`, the loop reads `deviceCallbackArray[i]`.  This
returns the list of indices whose callback-table slot is read for a given
device string. -/
def matchingIndices (device : List Char) : List Nat :=
  (List.range MAX_DEVICE_TYPES).filter fun i => deviceTypeStrings.getD i [] = device

/-- The callback-table read performed at index `i`: in bounds it yields the
registered callback; past the end of `deviceCallbackArray` it is an
out-of-bounds array read (undefined behavior in the C program), modelled as
`none`. -/
def callbackLookup (i : Nat) : Option DeviceCallbackFn :=
  deviceCallbackArray.get? i

/-- C1: the claim asserts that the callback-table lookup stays within the
bounds of the callback table for each of the twelve device-type strings.
Evaluating the router at the failing inputs shows otherwise: the inbound
messages `{"device":"local llm", …}` and `{"device":"cloud llm", …}` match
`deviceTypeStrings` at indices 10 and 11, while `deviceCallbackArray` holds
only 10 entries, so the dispatch loop reads past the end of the callback
table (no callback is registered for either device).  For the other ten
device strings the lookup is in bounds and yields the callback at the
string's enumeration position. -/
theorem C1_router_lookup_out_of_bounds :
    matchingIndices "local llm".toList = [10] ∧
    matchingIndices "cloud llm".toList = [11] ∧
    deviceCallbackArray.length = 10 ∧
    callbackLookup 10 = none ∧
    callbackLookup 11 = none ∧
    matchingIndices "music".toList = [5] ∧
    callbackLookup 5 = some DeviceCallbackFn.musicCallback := by
  refine ⟨by decide, by decide, by decide, by decide, by decide, by decide,
    by decide⟩

/-- C2 (counterexample): the claim says an unknown placeholder such as
`%datetime%` is left in the output verbatim.  On the concrete template
`"go %datetime% now"` the function instead deletes the placeholder: the
output is `"go  now"`, and `"%datetime%"` does not occur in it. -/
theorem C2_counterexample :
    replaceWithValues "go %datetime% now".toList "light".toList "seven".toList =
      "go  now".toList ∧
    ¬ ("%datetime%".toList <:+:
        replaceWithValues "go %datetime% now".toList "light".toList "seven".toList) := by
  have h : replaceWithValues "go %datetime% now".toList "light".toList "seven".toList =
      "go  now".toList := by
    simp [replaceWithValues, placeholderSubst]
  refine ⟨h, ?_⟩
  rw [h]
  decide

/-- C2 (amended): `replaceWithValues` *removes* an unknown placeholder (one
whose text is not a prefix of `device_name` or of `value`) from the output
instead of leaving it verbatim, while `%device_name%` and `%value%` are
replaced by the supplied device name and value. -/
theorem C2_unknown_placeholder_dropped
    (pre ph post dev val : List Char)
    (hpre : ∀ c ∈ pre, c ≠ '%') (hph : ∀ c ∈ ph, c ≠ '%')
    (hpost : ∀ c ∈ post, c ≠ '%')
    (hdn : ¬ ph <+: "device_name".toList)
    (hv : ¬ ph <+: "value".toList) :
    replaceWithValues (pre ++ '%' :: (ph ++ '%' :: post)) dev val = pre ++ post ∧
    replaceWithValues (pre ++ '%' :: ("device_name".toList ++ '%' :: post)) dev val =
      pre ++ dev ++ post ∧
    replaceWithValues (pre ++ '%' :: ("value".toList ++ '%' :: post)) dev val =
      pre ++ val ++ post := by
  have hplain := replaceWithValues_pfree post dev val hpost
  have hdn2 : ¬ ph <+: ['d', 'e', 'v', 'i', 'c', 'e', '_', 'n', 'a', 'm', 'e'] := by
    simpa using hdn
  have hv2 : ¬ ph <+: ['v', 'a', 'l', 'u', 'e'] := by simpa using hv
  refine ⟨?_, ?_, ?_⟩
  · rw [replaceWithValues_pfree_append pre _ dev val hpre,
      replaceWithValues_placeholder ph post dev val hph, hplain]
    simp [placeholderSubst, List.isPrefixOf_iff_prefix, hdn2, hv2]
  · rw [replaceWithValues_pfree_append pre _ dev val hpre,
      replaceWithValues_placeholder _ post dev val (by decide), hplain]
    simp +decide [placeholderSubst]
  · rw [replaceWithValues_pfree_append pre _ dev val hpre,
      replaceWithValues_placeholder _ post dev val (by decide), hplain]
    simp +decide [placeholderSubst]

/-- Witness for `C2_unknown_placeholder_dropped` at the concrete template
`"go %datetime% now"` with device `light` and value `seven`. -/
theorem C2_unknown_placeholder_dropped_witness :
    replaceWithValues ("go ".toList ++ '%' :: ("datetime".toList ++ '%' :: " now".toList))
      "light".toList "seven".toList = "go ".toList ++ " now".toList :=
  (C2_unknown_placeholder_dropped "go ".toList "datetime".toList " now".toList
    "light".toList "seven".toList (by decide) (by decide) (by decide)
    (by decide) (by decide)).1

/-! ## Command configuration and compiled command table
(`text_to_command_nuevo.h` / `text_to_command_nuevo.c`) -/

/-- `MAX_COMMAND_LENGTH` (512): `strncpy` bound for the three pattern fields
of a compiled entry. -/
def MAX_COMMAND_LENGTH : Nat := 512

/-- `MAX_WORD_LENGTH` (256): `strncpy` bound for the topic field. -/
def MAX_WORD_LENGTH : Nat := 256

/-- `MAX_COMMANDS` (1000): capacity of the compiled command table. -/
def MAX_COMMANDS : Nat := 1000

/-- `commandDevice`: a controllable device of some action type. -/
structure CommandDevice where
  name : List Char
  aliases : List (List Char)
  unit : List Char
  topic : List Char

/-- `commandAction`: a sub-action with its action-word templates and the
command template to send. -/
structure CommandAction where
  name : List Char
  actionWords : List (List Char)
  actionCommand : List Char

/-- `actionType`: an action category with its sub-actions and devices. -/
structure ActionType where
  name : List Char
  subActions : List CommandAction
  devices : List CommandDevice

/-- `commandSearchElement`: one row of the compiled command table. -/
structure CommandSearchElement where
  actionWordsWildcard : List Char
  actionWordsRegex : List Char
  actionCommand : List Char
  topic : List Char
  deriving DecidableEq

/-- One emission of `convertActionsToCommands`: the wildcard pattern
substitutes the device name (or alias) and `"*"` into the action word, the
extraction pattern substitutes `"%s"`, and the command template substitutes
the *canonical* device name and `"%s"` into the action command; each field is
bounded by its `strncpy` limit. -/
def mkCommandEntry (aw ac nameOrAlias devName topic : List Char) :
    CommandSearchElement :=
  { actionWordsWildcard := (replaceWithValues aw nameOrAlias "*".toList).take MAX_COMMAND_LENGTH,
    actionWordsRegex := (replaceWithValues aw nameOrAlias "%s".toList).take MAX_COMMAND_LENGTH,
    actionCommand := (replaceWithValues ac devName "%s".toList).take MAX_COMMAND_LENGTH,
    topic := topic.take MAX_WORD_LENGTH }

/-- The innermost alias loop of `convertActionsToCommands` (with the
`*numCommands == MAX_COMMANDS` early return after each emission); `cnt` is
the running `*numCommands` before the next emission and the `Bool` records
whether the overflow return was taken. -/
def compileAliases (aw ac devName topic : List Char) (aliases : List (List Char))
    (cnt : Nat) : List CommandSearchElement × Bool :=
  match aliases with
  | [] => ([], false)
  | a :: rest =>
    let e := mkCommandEntry aw ac a devName topic
    if cnt + 1 = MAX_COMMANDS then ([e], true)
    else
      let p := compileAliases aw ac devName topic rest (cnt + 1)
      (e :: p.1, p.2)

/-- One device iteration: the device-name entry, the overflow check, then the
alias loop. -/
def compileDevice (aw ac : List Char) (d : CommandDevice) (cnt : Nat) :
    List CommandSearchElement × Bool :=
  let e := mkCommandEntry aw ac d.name d.name d.topic
  if cnt + 1 = MAX_COMMANDS then ([e], true)
  else
    let p := compileAliases aw ac d.name d.topic d.aliases (cnt + 1)
    (e :: p.1, p.2)

/-- The device loop (`m`), propagating an inner early return outward. -/
def compileDevices (aw ac : List Char) (ds : List CommandDevice) (cnt : Nat) :
    List CommandSearchElement × Bool :=
  match ds with
  | [] => ([], false)
  | d :: rest =>
    let p := compileDevice aw ac d cnt
    if p.2 then (p.1, true)
    else
      let q := compileDevices aw ac rest (cnt + p.1.length)
      (p.1 ++ q.1, q.2)

/-- The action-word loop (`k`). -/
def compileActionWords (ac : List Char) (aws : List (List Char))
    (ds : List CommandDevice) (cnt : Nat) : List CommandSearchElement × Bool :=
  match aws with
  | [] => ([], false)
  | aw :: rest =>
    let p := compileDevices aw ac ds cnt
    if p.2 then (p.1, true)
    else
      let q := compileActionWords ac rest ds (cnt + p.1.length)
      (p.1 ++ q.1, q.2)

/-- The sub-action loop (`j`). -/
def compileSubActions (sas : List CommandAction) (ds : List CommandDevice)
    (cnt : Nat) : List CommandSearchElement × Bool :=
  match sas with
  | [] => ([], false)
  | sa :: rest =>
    let p := compileActionWords sa.actionCommand sa.actionWords ds cnt
    if p.2 then (p.1, true)
    else
      let q := compileSubActions rest ds (cnt + p.1.length)
      (p.1 ++ q.1, q.2)

/-- The action-type loop (`i`). -/
def compileActions (ats : List ActionType) (cnt : Nat) :
    List CommandSearchElement × Bool :=
  match ats with
  | [] => ([], false)
  | a :: rest =>
    let p := compileSubActions a.subActions a.devices cnt
    if p.2 then (p.1, true)
    else
      let q := compileActions rest (cnt + p.1.length)
      (p.1 ++ q.1, q.2)

/-- `convertActionsToCommands` from `text_to_command_nuevo.c`, run as in
`dawn.c` with `numCommands` starting at 0: the resulting compiled command
table in emission order. -/
def convertActionsToCommands (actions : List ActionType) :
    List CommandSearchElement :=
  (compileActions actions 0).1

/-- The number of table entries one device contributes: its name plus one per
alias. -/
def deviceSlots (d : CommandDevice) : Nat := 1 + d.aliases.length

/-- The specified size of the compiled table:
`Σ over subActions × actionWords × (1 + aliases)` for the devices of each
action type. -/
def totalCount (actions : List ActionType) : Nat :=
  (actions.map fun a =>
    (a.subActions.map fun sa =>
      (sa.actionWords.map fun _ =>
        (a.devices.map deviceSlots).sum).sum).sum).sum

theorem compileAliases_spec (aw ac dn tp : List Char) (aliases : List (List Char)) :
    ∀ cnt, cnt + aliases.length ≤ MAX_COMMANDS →
      (compileAliases aw ac dn tp aliases cnt).1.length = aliases.length ∧
      ((compileAliases aw ac dn tp aliases cnt).2 = true →
        cnt + aliases.length = MAX_COMMANDS) := by
  induction aliases with
  | nil => intro cnt h; simp [compileAliases]
  | cons a rest ih =>
    intro cnt h
    simp only [List.length_cons] at h
    by_cases hc : cnt + 1 = MAX_COMMANDS
    · have hrest : rest.length = 0 := by omega
      constructor
      · simp [compileAliases, hc, hrest]
      · intro _; simp only [List.length_cons]; omega
    · have h2 := ih (cnt + 1) (by omega)
      constructor
      · simp [compileAliases, hc, h2.1]
      · intro hst
        simp only [compileAliases, if_neg hc] at hst
        have := h2.2 hst
        simp only [List.length_cons]
        omega

theorem compileDevice_spec (aw ac : List Char) (d : CommandDevice) (cnt : Nat)
    (h : cnt + deviceSlots d ≤ MAX_COMMANDS) :
    (compileDevice aw ac d cnt).1.length = deviceSlots d ∧
    ((compileDevice aw ac d cnt).2 = true → cnt + deviceSlots d = MAX_COMMANDS) := by
  simp only [deviceSlots] at h ⊢
  by_cases hc : cnt + 1 = MAX_COMMANDS
  · have hrest : d.aliases.length = 0 := by omega
    constructor
    · simp [compileDevice, hc, hrest]
    · intro _; omega
  · have h2 := compileAliases_spec aw ac d.name d.topic d.aliases (cnt + 1) (by omega)
    constructor
    · simp [compileDevice, hc, h2.1] <;> omega
    · intro hst
      simp only [compileDevice, if_neg hc] at hst
      have := h2.2 hst
      omega

theorem compileDevices_spec (aw ac : List Char) (ds : List CommandDevice) :
    ∀ cnt, cnt + (ds.map deviceSlots).sum ≤ MAX_COMMANDS →
      (compileDevices aw ac ds cnt).1.length = (ds.map deviceSlots).sum ∧
      ((compileDevices aw ac ds cnt).2 = true →
        cnt + (ds.map deviceSlots).sum = MAX_COMMANDS) := by
  induction ds with
  | nil => intro cnt h; simp [compileDevices]
  | cons d rest ih =>
    intro cnt h
    simp only [List.map_cons, List.sum_cons] at h
    have hd := compileDevice_spec aw ac d cnt (by omega)
    by_cases hst : (compileDevice aw ac d cnt).2 = true
    · have hfull := hd.2 hst
      have hrest : (rest.map deviceSlots).sum = 0 := by omega
      constructor
      · simp [compileDevices, hst, hd.1, hrest]
      · intro _; simp only [List.map_cons, List.sum_cons]; omega
    · have h2 := ih (cnt + (compileDevice aw ac d cnt).1.length)
        (by rw [hd.1]; omega)
      constructor
      · simp [compileDevices, hst, hd.1] <;> rw [hd.1] at h2 <;> omega
      · intro hst2
        simp only [compileDevices, hst, Bool.false_eq_true, if_false] at hst2
        rw [hd.1] at hst2 h2
        have := h2.2 hst2
        simp only [List.map_cons, List.sum_cons]
        omega

theorem compileActionWords_spec (ac : List Char) (aws : List (List Char))
    (ds : List CommandDevice) :
    ∀ cnt, cnt + (aws.map fun _ => (ds.map deviceSlots).sum).sum ≤ MAX_COMMANDS →
      (compileActionWords ac aws ds cnt).1.length =
        (aws.map fun _ => (ds.map deviceSlots).sum).sum ∧
      ((compileActionWords ac aws ds cnt).2 = true →
        cnt + (aws.map fun _ => (ds.map deviceSlots).sum).sum = MAX_COMMANDS) := by
  induction aws with
  | nil => intro cnt h; simp [compileActionWords]
  | cons aw rest ih =>
    intro cnt h
    simp only [List.map_cons, List.sum_cons] at h
    have hd := compileDevices_spec aw ac ds cnt (by omega)
    by_cases hst : (compileDevices aw ac ds cnt).2 = true
    · have hfull := hd.2 hst
      have hrest : (rest.map fun _ => (ds.map deviceSlots).sum).sum = 0 := by omega
      constructor
      · simp only [compileActionWords]
        rw [if_pos hst]
        simp only [hd.1, List.map_cons, List.sum_cons, hrest]
        omega
      · intro _; simp only [List.map_cons, List.sum_cons]; omega
    · have h2 := ih (cnt + (compileDevices aw ac ds cnt).1.length)
        (by rw [hd.1]; omega)
      constructor
      · simp only [compileActionWords]
        rw [if_neg hst]
        simp only [List.length_append]
        rw [h2.1, hd.1]
        simp only [List.map_cons, List.sum_cons]
      · intro hst2
        simp only [compileActionWords] at hst2
        rw [if_neg hst] at hst2
        simp only at hst2
        have h3 := h2.2 hst2
        rw [hd.1] at h3
        simp only [List.map_cons, List.sum_cons]
        omega

theorem compileSubActions_spec (sas : List CommandAction) (ds : List CommandDevice) :
    ∀ cnt,
      cnt + (sas.map fun sa => (sa.actionWords.map fun _ =>
          (ds.map deviceSlots).sum).sum).sum ≤ MAX_COMMANDS →
      (compileSubActions sas ds cnt).1.length =
        (sas.map fun sa => (sa.actionWords.map fun _ =>
          (ds.map deviceSlots).sum).sum).sum ∧
      ((compileSubActions sas ds cnt).2 = true →
        cnt + (sas.map fun sa => (sa.actionWords.map fun _ =>
          (ds.map deviceSlots).sum).sum).sum = MAX_COMMANDS) := by
  induction sas with
  | nil => intro cnt h; simp [compileSubActions]
  | cons sa rest ih =>
    intro cnt h
    simp only [List.map_cons, List.sum_cons] at h
    have hd := compileActionWords_spec sa.actionCommand sa.actionWords ds cnt (by omega)
    by_cases hst : (compileActionWords sa.actionCommand sa.actionWords ds cnt).2 = true
    · have hfull := hd.2 hst
      have hrest : (rest.map fun sa => (sa.actionWords.map fun _ =>
          (ds.map deviceSlots).sum).sum).sum = 0 := by omega
      constructor
      · simp only [compileSubActions]
        rw [if_pos hst]
        simp only [hd.1, List.map_cons, List.sum_cons, hrest]
        omega
      · intro _; simp only [List.map_cons, List.sum_cons]; omega
    · have h2 := ih (cnt + (compileActionWords sa.actionCommand sa.actionWords ds cnt).1.length)
        (by rw [hd.1]; omega)
      constructor
      · simp only [compileSubActions]
        rw [if_neg hst]
        simp only [List.length_append]
        rw [h2.1, hd.1]
        simp only [List.map_cons, List.sum_cons]
      · intro hst2
        simp only [compileSubActions] at hst2
        rw [if_neg hst] at hst2
        simp only at hst2
        have h3 := h2.2 hst2
        rw [hd.1] at h3
        simp only [List.map_cons, List.sum_cons]
        omega

theorem compileActions_spec (ats : List ActionType) :
    ∀ cnt, cnt + totalCount ats ≤ MAX_COMMANDS →
      (compileActions ats cnt).1.length = totalCount ats ∧
      ((compileActions ats cnt).2 = true → cnt + totalCount ats = MAX_COMMANDS) := by
  induction ats with
  | nil => intro cnt h; simp [compileActions, totalCount]
  | cons a rest ih =>
    intro cnt h
    simp only [totalCount, List.map_cons, List.sum_cons] at h
    have hd := compileSubActions_spec a.subActions a.devices cnt (by omega)
    by_cases hst : (compileSubActions a.subActions a.devices cnt).2 = true
    · have hfull := hd.2 hst
      have hrest : totalCount rest = 0 := by simp only [totalCount] at h ⊢; omega
      constructor
      · simp only [compileActions]
        rw [if_pos hst]
        simp only [totalCount] at hrest ⊢
        simp only [hd.1, List.map_cons, List.sum_cons, hrest]
        omega
      · intro _
        simp only [totalCount, List.map_cons, List.sum_cons]
        simp only [totalCount] at hrest
        omega
    · have h2 := ih (cnt + (compileSubActions a.subActions a.devices cnt).1.length)
        (by rw [hd.1]; simp only [totalCount]; omega)
      constructor
      · simp only [compileActions]
        rw [if_neg hst]
        simp only [totalCount] at h2 ⊢
        simp only [List.length_append]
        rw [h2.1, hd.1]
        simp only [List.map_cons, List.sum_cons]
      · intro hst2
        simp only [compileActions] at hst2
        rw [if_neg hst] at hst2
        simp only at hst2
        have h3 := h2.2 hst2
        rw [hd.1] at h3
        simp only [totalCount, List.map_cons, List.sum_cons] at h3 ⊢
        omega

/-- C6: for a configuration within the compile-time bounds (the total stays
within the `MAX_COMMANDS` capacity), the number of compiled command table
entries equals the sum, over action types, sub-actions and action words, of
(1 + number of aliases) summed over that action type's devices: one entry per
(subAction, actionWord, device-name-or-alias) triple. -/
theorem C6_compiled_table_size (actions : List ActionType)
    (h : totalCount actions ≤ MAX_COMMANDS) :
    (convertActionsToCommands actions).length = totalCount actions := by
  have := compileActions_spec actions 0 (by omega)
  simpa [convertActionsToCommands] using this.1

/-- Witness for `C6_compiled_table_size` on a small concrete configuration:
one action type, one sub-action with two action words, two devices with one
and zero aliases — 2 × (2 + 1) = 6 entries. -/
theorem C6_compiled_table_size_witness :
    (convertActionsToCommands
      [{ name := "lighting".toList,
         subActions := [{ name := "set".toList,
                          actionWords := ["set %device_name% to %value%".toList,
                                          "turn %device_name% to %value%".toList],
                          actionCommand := "%device_name% %value%".toList }],
         devices := [{ name := "light".toList, aliases := ["lamp".toList],
                       unit := [], topic := "home/light".toList },
                     { name := "fan".toList, aliases := [],
                       unit := [], topic := "home/fan".toList }] }]).length = 6 := by
  have h := C6_compiled_table_size
    [{ name := "lighting".toList,
       subActions := [{ name := "set".toList,
                        actionWords := ["set %device_name% to %value%".toList,
                                        "turn %device_name% to %value%".toList],
                        actionCommand := "%device_name% %value%".toList }],
       devices := [{ name := "light".toList, aliases := ["lamp".toList],
                     unit := [], topic := "home/light".toList },
                   { name := "fan".toList, aliases := [],
                     unit := [], topic := "home/fan".toList }] }]
    (by simp [totalCount, deviceSlots, MAX_COMMANDS])
  simpa [totalCount, deviceSlots] using h

/-! ## Command dispatch (`dawn.c`, `PROCESS_COMMAND` case) -/

/-- Value extraction in the `PROCESS_COMMAND` case of `dawn.c`: when the
extraction pattern ends in `"%s"`, strip those two characters and take
everything after the first occurrence of the remaining literal prefix in the
command text (via `extract_remaining_after_substring`); if the prefix does
not occur the C code would pass `NULL` to `strcpy` (that case is unreachable
for an entry whose wildcard just matched).  When the pattern does not end in
`"%s"` the C code calls `sscanf(command_text, regex, thisValue)` on a
conversion-free pattern, leaving `thisValue` as the zeroed buffer — the empty
string here. -/
def extractValue (regex text : List Char) : List Char :=
  if regex.length ≥ 2 ∧ regex.drop (regex.length - 2) = ['%', 's'] then
    match strstrRem text (regex.take (regex.length - 2)) with
    | some v => v
    | none => []
  else []

/-- `snprintf(thisCommand, …, commands[i].actionCommand, thisValue)`: the
compiled command template contains (at most) one `%s` conversion; the first
`%s` is replaced by the extracted value and the rest of the format is copied
verbatim. -/
def formatPercentS (fmt arg : List Char) : List Char :=
  match fmt with
  | [] => []
  | '%' :: 's' :: rest => arg ++ rest
  | c :: rest => c :: formatPercentS rest arg

/-- A `'%'`-free prefix of the format is copied and the first `%s` after it
is replaced by the argument. -/
theorem formatPercentS_pfree (a b arg : List Char) (h : ∀ c ∈ a, c ≠ '%') :
    formatPercentS (a ++ '%' :: 's' :: b) arg = a ++ arg ++ b := by
  induction a with
  | nil => simp [formatPercentS]
  | cons c a ih =>
    have hc : c ≠ '%' := h c (by simp)
    have ih2 := ih fun d hd => h d (by simp [hd])
    match c, hc with
    | c, hc =>
      rw [List.cons_append, formatPercentS.eq_def]
      split
      · simp_all
      · simp_all
      · simp_all [ih2]

/-- The `PROCESS_COMMAND` scan of `dawn.c`: iterate the compiled command
table in order; on the first entry whose wildcard pattern matches the whole
command text (`searchString == 1`), extract the value, instantiate the
command template and publish it to the entry's topic (returned as
`(topic, payload)`); if no entry matches, nothing is published (`none`, and
the text goes on to the ignore-list / LLM path). -/
def processCommand (commands : List CommandSearchElement) (text : List Char) :
    Option (List Char × List Char) :=
  match commands with
  | [] => none
  | cmd :: rest =>
    if searchString cmd.actionWordsWildcard text = 1 then
      some (cmd.topic,
        formatPercentS cmd.actionCommand (extractValue cmd.actionWordsRegex text))
    else processCommand rest text

/-- The configuration of the C3 round-trip law: one action type whose single
sub-action has the action word `"set %device_name% to %value%"` and an
arbitrary action command `ac`, and one device named `light` with alias
`lamp` publishing to `home/light`. -/
def c3Actions (ac : List Char) : List ActionType :=
  [{ name := "lighting".toList,
     subActions := [{ name := "set".toList,
                      actionWords := ["set %device_name% to %value%".toList],
                      actionCommand := ac }],
     devices := [{ name := "light".toList, aliases := ["lamp".toList],
                   unit := [], topic := "home/light".toList }] }]

theorem c3_hac (pre mid post : List Char)
    (hpre : ∀ c ∈ pre, c ≠ '%') (hmid : ∀ c ∈ mid, c ≠ '%')
    (hpost : ∀ c ∈ post, c ≠ '%') :
    replaceWithValues
        (pre ++ "%device_name%".toList ++ mid ++ "%value%".toList ++ post)
        "light".toList "%s".toList =
      pre ++ "light".toList ++ mid ++ ['%', 's'] ++ post := by
  have h1 : pre ++ "%device_name%".toList ++ mid ++ "%value%".toList ++ post =
      pre ++ ('%' :: ("device_name".toList ++ '%' ::
        (mid ++ ('%' :: ("value".toList ++ '%' :: post))))) := by
    simp [List.append_assoc]
  rw [h1, replaceWithValues_pfree_append _ _ _ _ hpre,
    replaceWithValues_placeholder _ _ _ _ (by decide),
    replaceWithValues_pfree_append _ _ _ _ hmid,
    replaceWithValues_placeholder _ _ _ _ (by decide),
    replaceWithValues_pfree _ _ _ hpost]
  simp +decide [placeholderSubst]

/-- C3: for any action command containing the `%device_name%` and `%value%`
placeholders (with `'%'`-free context), compiling the table for the action
word `"set %device_name% to %value%"` and a device `light` with alias `lamp`,
then dispatching the transcript `"set lamp to seven"`, matches the compiled
alias entry, extracts `"seven"` as the value, and publishes to the device's
topic a payload containing the canonical name `light` in the device slot and
`seven` in the value slot. -/
theorem C3_round_trip (pre mid post : List Char)
    (hpre : ∀ c ∈ pre, c ≠ '%') (hmid : ∀ c ∈ mid, c ≠ '%')
    (hpost : ∀ c ∈ post, c ≠ '%')
    (hlen : pre.length + mid.length + post.length ≤ 500) :
    processCommand
      (convertActionsToCommands
        (c3Actions (pre ++ "%device_name%".toList ++ mid ++ "%value%".toList ++ post)))
      "set lamp to seven".toList =
    some ("home/light".toList,
      pre ++ "light".toList ++ mid ++ "seven".toList ++ post) := by
  have hac := c3_hac pre mid post hpre hmid hpost
  have hw1 : replaceWithValues "set %device_name% to %value%".toList "light".toList
      "*".toList = "set light to *".toList := by
    simp [replaceWithValues, placeholderSubst]
  have hw2 : replaceWithValues "set %device_name% to %value%".toList "lamp".toList
      "*".toList = "set lamp to *".toList := by
    simp [replaceWithValues, placeholderSubst]
  have hr1 : replaceWithValues "set %device_name% to %value%".toList "light".toList
      "%s".toList = "set light to %s".toList := by
    simp [replaceWithValues, placeholderSubst]
  have hr2 : replaceWithValues "set %device_name% to %value%".toList "lamp".toList
      "%s".toList = "set lamp to %s".toList := by
    simp [replaceWithValues, placeholderSubst]
  have htk1 : List.take MAX_COMMAND_LENGTH "set light to *".toList = "set light to *".toList := by decide
  have htk2 : List.take MAX_COMMAND_LENGTH "set lamp to *".toList = "set lamp to *".toList := by decide
  have htk3 : List.take MAX_COMMAND_LENGTH "set light to %s".toList = "set light to %s".toList := by decide
  have htk4 : List.take MAX_COMMAND_LENGTH "set lamp to %s".toList = "set lamp to %s".toList := by decide
  have htk5 : List.take MAX_WORD_LENGTH "home/light".toList = "home/light".toList := by decide
  have htake : (pre ++ "light".toList ++ mid ++ ['%','s'] ++ post).take MAX_COMMAND_LENGTH
      = pre ++ "light".toList ++ mid ++ ['%','s'] ++ post := by
    apply List.take_of_length_le
    simp [MAX_COMMAND_LENGTH]
    omega
  simp only [convertActionsToCommands, c3Actions, compileActions,
    compileSubActions, compileActionWords, compileDevices, compileDevice,
    compileAliases, mkCommandEntry, MAX_COMMANDS, hac, hw1, hw2, hr1, hr2,
    htk1, htk2, htk3, htk4, htk5, htake]
  norm_num
  simp only [processCommand]
  rw [if_neg (by decide), if_pos (by decide)]
  have hev : extractValue ['s','e','t',' ','l','a','m','p',' ','t','o',' ','%','s']
      ['s','e','t',' ','l','a','m','p',' ','t','o',' ','s','e','v','e','n'] = "seven".toList := by
    decide
  rw [hev]
  have hplm : ∀ c ∈ pre ++ "light".toList ++ mid, c ≠ '%' := by
    intro c hc
    simp only [List.append_assoc, List.mem_append] at hc
    rcases hc with hc | hc | hc
    · exact hpre c hc
    · simp at hc
      rcases hc with rfl | rfl | rfl | rfl | rfl <;> decide
    · exact hmid c hc
  have hfmt := formatPercentS_pfree (pre ++ "light".toList ++ mid) post "seven".toList hplm
  simp at hfmt
  simp [hfmt]

/-- Witness for `C3_round_trip` with the action command
`device: %device_name% value: %value%`. -/
theorem C3_round_trip_witness :
    processCommand
      (convertActionsToCommands
        (c3Actions ("device: ".toList ++ "%device_name%".toList ++
          " value: ".toList ++ "%value%".toList ++ "".toList)))
      "set lamp to seven".toList =
    some ("home/light".toList,
      "device: ".toList ++ "light".toList ++ " value: ".toList ++
        "seven".toList ++ "".toList) :=
  C3_round_trip "device: ".toList " value: ".toList "".toList
    (by decide) (by decide) (by decide) (by decide)

/-! ## TTS playback state and worker (`text_to_speech.h` / `text_to_speech.cpp`) -/

/-- The `TTS_PLAYBACK_*` states of `text_to_speech.h`. -/
inductive TtsPlaybackState
  | idle
  | play
  | pause
  | discard
  deriving DecidableEq

theorem list_getD_tail {α : Type} (l : List α) (j : Nat) (d : α) :
    l.tail.getD j d = l.getD (j + 1) d := by
  cases l <;> simp [List.getD]

theorem list_getD_zero {α : Type} (l : List α) (d : α) :
    l.headD d = l.getD 0 d := by
  cases l <;> simp [List.getD]

/-- The per-request streaming loop of `tts_thread_function`
(`text_to_speech.cpp`, PulseAudio branch): the synthesized PCM is written in
chunks; before each chunk the worker locks the mutex, waits while the state
is `PAUSE`, and then acts on the observed state.  `obs` lists the post-wait
observation made at each chunk boundary (the wait loop exits only when the
state is not `PAUSE`).  On `DISCARD` the worker sets the state to `IDLE`,
clears the remaining audio buffer, pops the entire request queue, sets the
`tts_stop_processing` flag and returns; otherwise it writes the chunk.
After the last chunk the state is set to `IDLE`.  The result is
(final playback state, final queue, chunks actually written,
stop-processing flag). -/
def ttsPlayLoop (obs : List TtsPlaybackState) (chunks : List (List Int))
    (q : List (List Char)) :
    TtsPlaybackState × List (List Char) × List (List Int) × Bool :=
  match chunks with
  | [] => (.idle, q, [], false)
  | c :: rest =>
    if obs.headD .play = .discard then (.idle, [], [], true)
    else
      let r := ttsPlayLoop obs.tail rest q
      (r.1, r.2.1, c :: r.2.2.1, r.2.2.2)

/-- C4: whenever the worker observes `Discard` at a chunk boundary — at any
position `k` within the buffer, for any request-queue contents — it sets the
playback state to `Idle`, drops the remaining PCM (only the first `k` chunks
were written), empties the entire request queue, and raises the synthesis
cancellation flag. -/
theorem C4_discard_resets_worker (obs : List TtsPlaybackState)
    (chunks : List (List Int)) (q : List (List Char)) (k : Nat)
    (hk : k < chunks.length)
    (hbefore : ∀ j < k, obs.getD j .play ≠ .discard)
    (hdisc : obs.getD k .play = .discard) :
    ttsPlayLoop obs chunks q = (.idle, [], chunks.take k, true) := by
  induction k generalizing obs chunks with
  | zero =>
    match chunks, hk with
    | c :: rest, _ =>
      rw [← list_getD_zero] at hdisc
      simp_all [ttsPlayLoop]
  | succ k ih =>
    match chunks, hk with
    | c :: rest, hk =>
      have h0 : obs.headD .play ≠ .discard := by
        rw [list_getD_zero]
        exact hbefore 0 (Nat.succ_pos k)
      have hb : ∀ j < k, obs.tail.getD j .play ≠ .discard := by
        intro j hj
        rw [list_getD_tail]
        exact hbefore (j + 1) (by omega)
      have hd : obs.tail.getD k .play = .discard := by
        rw [list_getD_tail]
        exact hdisc
      simp only [ttsPlayLoop, if_neg h0]
      rw [ih obs.tail rest (by simpa using hk) hb hd]
      simp

/-- Witness for `C4_discard_resets_worker`: three chunks, discard observed at
the second boundary, a non-empty queue. -/
theorem C4_discard_resets_worker_witness :
    ttsPlayLoop [TtsPlaybackState.play, TtsPlaybackState.discard]
      [[1], [2], [3]] ["hello".toList] =
      (TtsPlaybackState.idle, [], [[1]], true) :=
  C4_discard_resets_worker [TtsPlaybackState.play, TtsPlaybackState.discard]
    [[1], [2], [3]] ["hello".toList] 1 (by decide)
    (by decide) (by decide)

/-! ## Main-thread TTS state writes (`dawn.c`) -/

/-- `WAKEWORD_LISTEN` cancel-word branch (`dawn.c`): under the TTS mutex,
`Discard` is written only when the state equals `Paused`. -/
def cancelBranchTtsWrite (s : TtsPlaybackState) : TtsPlaybackState :=
  if s = .pause then .discard else s

/-- `WAKEWORD_LISTEN` wake-word-detected branch (`dawn.c`): guarded
pause-to-discard write. -/
def wakeBranchTtsWrite (s : TtsPlaybackState) : TtsPlaybackState :=
  if s = .pause then .discard else s

/-- `COMMAND_RECORDING` entry (`dawn.c`): guarded pause-to-discard write. -/
def commandRecordingEntryTtsWrite (s : TtsPlaybackState) : TtsPlaybackState :=
  if s = .pause then .discard else s

/-- `PROCESS_COMMAND` command-matched branch (`dawn.c`): guarded
pause-to-discard write. -/
def commandMatchedTtsWrite (s : TtsPlaybackState) : TtsPlaybackState :=
  if s = .pause then .discard else s

/-- `WAKEWORD_LISTEN` goodbye branch (`dawn.c`): guarded pause-to-discard
write. -/
def goodbyeBranchTtsWrite (s : TtsPlaybackState) : TtsPlaybackState :=
  if s = .pause then .discard else s

/-- `PROCESS_COMMAND` LLM-reply branch and LLM-error branch (`dawn.c`):
guarded pause-to-discard write before speaking the reply / apology. -/
def llmReplyTtsWrite (s : TtsPlaybackState) : TtsPlaybackState :=
  if s = .pause then .discard else s

/-- `SILENCE` entry, no-wake-match branch, ignore-word branch and
`VISION_AI_READY` entry (`dawn.c`): guarded pause-to-play (resume) write. -/
def resumeTtsWrite (s : TtsPlaybackState) : TtsPlaybackState :=
  if s = .pause then .play else s

/-- `WAKEWORD_LISTEN` entry (`dawn.c`): guarded play-to-pause write. -/
def pauseTtsWrite (s : TtsPlaybackState) : TtsPlaybackState :=
  if s = .play then .pause else s

/-- All writes the main thread performs on `tts_playback_state`
(each under the TTS mutex). -/
def mainThreadTtsWrites : List (TtsPlaybackState → TtsPlaybackState) :=
  [cancelBranchTtsWrite, wakeBranchTtsWrite, commandRecordingEntryTtsWrite,
   commandMatchedTtsWrite, goodbyeBranchTtsWrite, llmReplyTtsWrite,
   resumeTtsWrite, pauseTtsWrite]

/-- C10: every main-thread write that can produce `Discard` is guarded by a
`state == Paused` check under the TTS mutex, so the main thread's step
relation never moves the playback state from `Playing` or `Idle` directly to
`Discard`; a write yields `Discard` only from `Paused` (or when the state
already was `Discard`, which every guarded write leaves unchanged). -/
theorem C10_discard_only_from_pause (f : TtsPlaybackState → TtsPlaybackState)
    (hf : f ∈ mainThreadTtsWrites) (s : TtsPlaybackState) :
    (f s = .discard → s = .pause ∨ s = .discard) ∧
    ((s = .play ∨ s = .idle) → f s ≠ .discard) := by
  fin_cases hf <;> cases s <;>
    simp [cancelBranchTtsWrite, wakeBranchTtsWrite,
      commandRecordingEntryTtsWrite, commandMatchedTtsWrite,
      goodbyeBranchTtsWrite, llmReplyTtsWrite, resumeTtsWrite, pauseTtsWrite]

/-- Witness for `C10_discard_only_from_pause`: the cancel-branch write, from
`Playing`, does not produce `Discard`. -/
theorem C10_discard_only_from_pause_witness :
    cancelBranchTtsWrite TtsPlaybackState.play ≠ TtsPlaybackState.discard :=
  (C10_discard_only_from_pause cancelBranchTtsWrite (by simp [mainThreadTtsWrites])
    TtsPlaybackState.play).2 (Or.inl rfl)

/-! ## Listening states and AI-state publishing (`dawn.c`) -/

/-- The `listeningState` enumeration of `dawn.c`. -/
inductive ListenState
  | silence
  | wakewordListen
  | commandRecording
  | processCommand
  | visionAIReady
  | invalidState
  deriving DecidableEq

/-- The `switch (newState)` of `publish_ai_state`: the display string for
each valid state; the `default` branch (reachable only for
`INVALID_STATE`, which the guard already filtered) yields none. -/
def stateName : ListenState → Option (List Char)
  | .silence => some "SILENCE".toList
  | .wakewordListen => some "WAKEWORD_LISTEN".toList
  | .commandRecording => some "COMMAND_RECORDING".toList
  | .processCommand => some "PROCESS_COMMAND".toList
  | .visionAIReady => some "VISION_AI_READY".toList
  | .invalidState => none

/-- `AI_NAME` from `dawn.h`. -/
def AI_NAME : List Char := "friday".toList

/-- The `stateTemplate` of `publish_ai_state`. -/
def stateTemplate : List Char :=
  "\x7b\"device\": \"ai\", \"name\":\"%s\", \"state\":\"%s\"\x7d".toList

/-- `publish_ai_state(newState)` from `dawn.c`, with the last successfully
published state (`currentState`) passed explicitly and the outcome of
`mosquitto_publish` supplied as the oracle `pubOk`.  If the new state equals
the recorded one, or is `INVALID_STATE`, the function returns 0 at once and
nothing is published.  Otherwise it formats the message (two `%s` slots:
`AI_NAME` and the state string) and publishes it to the `hud` topic; only on
a successful publish is `currentState` updated to the new state.  The result
is (new `currentState`, the message handed to `mosquitto_publish` if any,
return code). -/
def publish_ai_state (cur new' : ListenState) (pubOk : Bool) :
    ListenState × Option (List Char) × Int :=
  if new' = cur ∨ new' = .invalidState then (cur, none, 0)
  else
    match stateName new' with
    | none => (cur, none, 1)
    | some st =>
      let msg := formatPercentS (formatPercentS stateTemplate AI_NAME) st
      if pubOk then (new', some msg, 0) else (cur, some msg, 1)

/-- C5: `publish_ai_state` hands a message to the bus iff the new state is a
valid listening state that differs from the last successfully published one;
for an equal state it publishes nothing and returns success; after a
successful publish the recorded state equals the new state, and an
immediately repeated call with the same state publishes nothing — so over
any sequence of transitions at most one message is emitted per distinct
(previous, new) transition. -/
theorem C5_publish_debounce (cur new' : ListenState) (ok : Bool) :
    ((publish_ai_state cur new' ok).2.1.isSome ↔
      (new' ≠ cur ∧ new' ≠ .invalidState)) ∧
    (new' = cur → publish_ai_state cur new' ok = (cur, none, 0)) ∧
    (ok = true → new' ≠ cur → new' ≠ .invalidState →
      (publish_ai_state cur new' true).1 = new' ∧
      publish_ai_state new' new' true = (new', none, 0) ∧
      publish_ai_state new' new' false = (new', none, 0)) := by
  refine ⟨?_, ?_, ?_⟩
  · cases new' <;> cases cur <;> cases ok <;> decide
  · intro h
    subst h
    simp [publish_ai_state]
  · intro _ hne hninv
    have hpub : publish_ai_state new' new' true = (new', none, 0) := by
      simp [publish_ai_state]
    have hpub2 : publish_ai_state new' new' false = (new', none, 0) := by
      simp [publish_ai_state]
    refine ⟨?_, hpub, hpub2⟩
    cases new' <;> cases cur <;> simp_all [publish_ai_state, stateName]

/-- Witness for `C5_publish_debounce`: publishing `WAKEWORD_LISTEN` after
`SILENCE` succeeds and records it; repeating it publishes nothing. -/
theorem C5_publish_debounce_witness :
    (publish_ai_state ListenState.silence ListenState.wakewordListen true).1 =
      ListenState.wakewordListen ∧
    publish_ai_state ListenState.wakewordListen ListenState.wakewordListen true =
      (ListenState.wakewordListen, none, 0) := by
  have h := (C5_publish_debounce ListenState.silence ListenState.wakewordListen
    true).2.2 rfl (by decide) (by decide)
  exact ⟨h.1, h.2.1⟩

/-! ## Wake-phrase handling (`dawn.c`, `WAKEWORD_LISTEN` final-result path) -/

/-- `wakeWords` from `dawn.c` (with `AI_NAME = "friday"`), in array order. -/
def wakeWords : List (List Char) :=
  ["hello friday".toList,
   "okay friday".toList,
   "alright friday".toList,
   "hey friday".toList,
   "hi friday".toList,
   "good evening friday".toList,
   "good day friday".toList,
   "good morning friday".toList]

/-- `goodbyeWords` from `dawn.c`. -/
def goodbyeWords : List (List Char) :=
  ["good bye".toList, "goodbye".toList, "good night".toList,
   "bye".toList, "quit".toList, "exit".toList]

/-- `cancelWords` from `dawn.c`. -/
def cancelWords : List (List Char) :=
  ["stop".toList, "stop it".toList, "cancel".toList, "hold on".toList,
   "wait".toList, "never mind".toList, "abort".toList, "pause".toList,
   "enough".toList, "disregard".toList, "no thanks".toList,
   "forget it".toList, "leave it".toList, "drop it".toList,
   "stand by".toList, "cease".toList, "interrupt".toList,
   "say no more".toList, "shut up".toList, "silence".toList,
   "zip it".toList, "enough already".toList, "that's enough".toList,
   "stop right there".toList]

/-- The wake-word scan of `dawn.c`: the loop takes the first entry of
`wakeWords` (in array order) that occurs in the transcript as a substring
(`strstr`), and `next_char_ptr` points just past that first occurrence; the
scan yields the remainder of the transcript after the wake phrase. -/
def wakeScan (t : List Char) : Option (List Char) :=
  wakeWords.findSome? fun w => strstrRem t w

/-- The outcome of one pass through the final-transcript handling of the
`WAKEWORD_LISTEN` case. -/
structure WakewordFinalResult where
  recState : ListenState
  silenceNext : ListenState
  commandText : Option (List Char)
  tts : TtsPlaybackState
  quit : Bool
  spoken : List (List Char)
  deriving DecidableEq

/-- The final-transcript handling of the `WAKEWORD_LISTEN` case of `dawn.c`
(after `vosk_recognizer_final_result` produced the transcript `t`), with the
TTS playback state `tts0` and the incoming `silenceNextState` `sn0` passed in
and threaded sequentially:
1. the goodbye loop (exact match) flips a paused TTS to discard, speaks
   "Goodbye sir." and sets `quit`;
2. if the TTS state (as left by step 1) is `Paused` and the transcript
   exactly equals a cancel word, TTS is set to `Discard`,
   `silenceNextState = WAKEWORD_LISTEN`, `recState = SILENCE`;
3. the wake scan: on a hit, a paused TTS is flipped to `Discard`; if nothing
   follows the wake phrase, it speaks "Hello sir.", arms
   `silenceNextState = COMMAND_RECORDING` and goes to `SILENCE`; otherwise
   the remainder (skipping one separating character) becomes the command
   text and the state goes to `PROCESS_COMMAND`; with no wake hit a paused
   TTS is resumed and the state returns to `SILENCE` with
   `silenceNextState = WAKEWORD_LISTEN`. -/
def wakewordFinalHandler (t : List Char) (tts0 : TtsPlaybackState)
    (sn0 : ListenState) : WakewordFinalResult :=
  let isGoodbye := goodbyeWords.any fun w => w = t
  let tts1 := if isGoodbye ∧ tts0 = .pause then TtsPlaybackState.discard else tts0
  let spoken1 : List (List Char) :=
    if isGoodbye then ["Goodbye sir.".toList] else []
  let cancelTaken := tts1 = TtsPlaybackState.pause ∧ (cancelWords.any fun w => w = t)
  let tts2 := if cancelTaken then TtsPlaybackState.discard else tts1
  let sn1 := if cancelTaken then ListenState.wakewordListen else sn0
  match wakeScan t with
  | some rest =>
    let tts3 := if tts2 = TtsPlaybackState.pause then TtsPlaybackState.discard else tts2
    if rest.isEmpty then
      { recState := .silence, silenceNext := .commandRecording,
        commandText := none, tts := tts3, quit := isGoodbye,
        spoken := spoken1 ++ ["Hello sir.".toList] }
    else
      { recState := .processCommand, silenceNext := sn1,
        commandText := some (rest.drop 1), tts := tts3, quit := isGoodbye,
        spoken := spoken1 }
  | none =>
    { recState := .silence, silenceNext := .wakewordListen,
      commandText := none,
      tts := if tts2 = TtsPlaybackState.pause then TtsPlaybackState.play else tts2,
      quit := isGoodbye, spoken := spoken1 }

/-- C7: wake detection is substring based.  (i) Whenever the wake scan finds
a wake phrase with a non-empty remainder after it, the handler goes to
`PROCESS_COMMAND` and the command text is that remainder with one separating
character skipped — for any TTS state and any incoming `silenceNextState`;
(ii) in particular the transcript "hey friday what time is it" yields the
command "what time is it"; (iii) a transcript ending exactly at the wake
phrase instead speaks "Hello sir." and arms command recording
(`silenceNextState = COMMAND_RECORDING`, back to `SILENCE`). -/
theorem C7_wake_substring_remainder :
    (∀ t tts0 sn0 rest, wakeScan t = some rest → rest ≠ [] →
      (wakewordFinalHandler t tts0 sn0).recState = ListenState.processCommand ∧
      (wakewordFinalHandler t tts0 sn0).commandText = some (rest.drop 1)) ∧
    (wakeScan "hey friday what time is it".toList =
      some " what time is it".toList ∧
     (wakewordFinalHandler "hey friday what time is it".toList
        TtsPlaybackState.pause ListenState.wakewordListen).recState =
          ListenState.processCommand ∧
     (wakewordFinalHandler "hey friday what time is it".toList
        TtsPlaybackState.pause ListenState.wakewordListen).commandText =
          some "what time is it".toList) ∧
    (∀ t tts0 sn0, wakeScan t = some [] →
      (wakewordFinalHandler t tts0 sn0).recState = ListenState.silence ∧
      (wakewordFinalHandler t tts0 sn0).silenceNext =
        ListenState.commandRecording ∧
      "Hello sir.".toList ∈ (wakewordFinalHandler t tts0 sn0).spoken) := by
  refine ⟨?_, ⟨by decide, by decide, by decide⟩, ?_⟩
  · intro t tts0 sn0 rest hscan hne
    have hemp : rest.isEmpty = false := by
      cases rest with
      | nil => exact absurd rfl hne
      | cons c cs => rfl
    constructor <;> simp [wakewordFinalHandler, hscan, hemp]
  · intro t tts0 sn0 hscan
    refine ⟨?_, ?_, ?_⟩ <;> simp [wakewordFinalHandler, hscan]

/-- Witness for `C7_wake_substring_remainder`: part (i) applied to the
transcript "hi friday play music". -/
theorem C7_wake_substring_remainder_witness :
    (wakewordFinalHandler "hi friday play music".toList
      TtsPlaybackState.play ListenState.wakewordListen).commandText =
    some "play music".toList :=
  ((C7_wake_substring_remainder).1 "hi friday play music".toList
    TtsPlaybackState.play ListenState.wakewordListen " play music".toList
    (by decide) (by decide)).2

/-! ## RMS (`audio_utils.c`) -/

/-- The accumulation loop of `calculateRMS`: each 16-bit sample is normalized
by 32768 and squared, and the squares are summed (`double` arithmetic
embedded exactly in `ℚ`). -/
def sumOfSquares (l : List Int) : ℚ :=
  (l.map (fun x : Int => ((x : ℚ) / 32768) ^ 2)).sum

/-- `sumOfSquares / numSamples`, the mean of the normalized squares computed
by `calculateRMS`; the RMS value the C function returns is the square root of
this mean. -/
def meanOfSquares (l : List Int) : ℚ :=
  sumOfSquares l / l.length

/-- C8: for every captured non-empty chunk of 16-bit samples, the RMS value
`sqrt(meanOfSquares)` computed by `calculateRMS` lies in `[0, 1]` (samples
are normalized by 32768 before squaring, averaging and taking the square
root; the arithmetic is modelled exactly over the rationals/reals). -/
theorem C8_rms_in_unit_interval (l : List Int) (hne : l ≠ [])
    (hbound : ∀ x ∈ l, -32768 ≤ x ∧ x ≤ 32767) :
    0 ≤ Real.sqrt ((meanOfSquares l : ℚ) : ℝ) ∧
    Real.sqrt ((meanOfSquares l : ℚ) : ℝ) ≤ 1 := by
  refine ⟨Real.sqrt_nonneg _, ?_⟩
  have hterm : ∀ y ∈ l.map (fun x : Int => ((x : ℚ) / 32768) ^ 2), y ≤ (1 : ℚ) := by
    intro y hy
    obtain ⟨x, hx, rfl⟩ := List.mem_map.mp hy
    have hb := hbound x hx
    have habs : |(x : ℚ)| ≤ 32768 := by
      rw [abs_le]
      constructor
      · exact_mod_cast hb.1
      · have h32 : (x : ℚ) ≤ 32767 := by exact_mod_cast hb.2
        linarith
    rw [sq_le_one_iff_abs_le_one, abs_div,
      abs_of_pos (show (0 : ℚ) < 32768 by norm_num)]
    rw [div_le_one (by norm_num)]
    exact habs
  have hsum : sumOfSquares l ≤ (l.length : ℚ) := by
    rw [sumOfSquares]
    have h1 := List.sum_le_card_nsmul
      (l.map (fun x : Int => ((x : ℚ) / 32768) ^ 2)) 1 hterm
    rw [List.length_map, nsmul_eq_mul, mul_one] at h1
    exact h1
  have hlen : (0 : ℚ) < l.length := by
    have h0 : l.length ≠ 0 := fun h => hne (List.length_eq_zero.mp h)
    exact_mod_cast Nat.pos_of_ne_zero h0
  have hmean : meanOfSquares l ≤ 1 := by
    rw [meanOfSquares, div_le_one hlen]
    exact hsum
  calc Real.sqrt ((meanOfSquares l : ℚ) : ℝ) ≤ Real.sqrt 1 :=
        Real.sqrt_le_sqrt (by exact_mod_cast hmean)
    _ = 1 := Real.sqrt_one

/-- Witness for `C8_rms_in_unit_interval` on the two-sample chunk
`[16384, -32768]`. -/
theorem C8_rms_in_unit_interval_witness :
    0 ≤ Real.sqrt ((meanOfSquares [16384, -32768] : ℚ) : ℝ) ∧
    Real.sqrt ((meanOfSquares [16384, -32768] : ℚ) : ℝ) ≤ 1 :=
  C8_rms_in_unit_interval [16384, -32768] (by decide) (by decide)

/-! ## Spoken-number conversion and volume (`word_to_number.c`,
`mosquitto_comms.c`, `flac_playback.c`) -/

/-- The `units` table of `parseNumericalWord`. -/
def unitsWords : List (List Char) :=
  ["zero".toList, "one".toList, "two".toList, "three".toList, "four".toList,
   "five".toList, "six".toList, "seven".toList, "eight".toList, "nine".toList]

/-- The `tens` table of `parseNumericalWord` (the first two entries are empty
strings in the C source; a `strtok` token is never empty, so they can never
match). -/
def tensWords : List (List Char) :=
  [[], [], "twenty".toList, "thirty".toList, "forty".toList, "fifty".toList,
   "sixty".toList, "seventy".toList, "eighty".toList, "ninety".toList]

/-- The `teens` table of `parseNumericalWord`. -/
def teensWords : List (List Char) :=
  ["ten".toList, "eleven".toList, "twelve".toList, "thirteen".toList,
   "fourteen".toList, "fifteen".toList, "sixteen".toList,
   "seventeen".toList, "eighteen".toList, "nineteen".toList]

/-- The loop body of `parseNumericalWord`: for `i = 0..9`, in order, compare
the token with `units[i]` (value `i`), `tens[i]` (value `i*10`) and
`teens[i]` (value `10+i`), walking the three tables in step. -/
def pnwLoop : Int → List (List Char) → List (List Char) → List (List Char) →
    List Char → Option Int
  | i, u :: us, t :: ts, e :: es, token =>
    if token = u then some i
    else if token = t then some (i * 10)
    else if token = e then some (10 + i)
    else pnwLoop (i + 1) us ts es token
  | _, _, _, _, _ => none

/-- `parseNumericalWord` from `word_to_number.c`; an unrecognized token
yields 0. -/
def parseNumericalWord (token : List Char) : Int :=
  (pnwLoop 0 unitsWords tensWords teensWords token).getD 0

/-- `strtok(word, " ")` tokenization: split on spaces; consecutive
delimiters produce no empty tokens. -/
def tokenizeAux : List Char → List Char → List (List Char)
  | [], cur => if cur = [] then [] else [cur.reverse]
  | c :: rest, cur =>
    if c = ' ' then
      if cur = [] then tokenizeAux rest []
      else cur.reverse :: tokenizeAux rest []
    else tokenizeAux rest (c :: cur)

def tokenize (s : List Char) : List (List Char) :=
  tokenizeAux s []

/-- The `magnitudes` table of `wordToNumber`. -/
def magnitudes : List (List Char × ℚ) :=
  [("thousand".toList, 1000), ("million".toList, 1000000),
   ("billion".toList, 1000000000), ("trillion".toList, 1000000000000)]

/-- The integer-part loop of `wordToNumber`: `result`/`tempValue`
accumulation with `break` on the token `point`, `tempValue *= 100` on
`hundred`, magnitude multipliers, and `parseNumericalWord` otherwise; after
the loop (or the break) the C code adds the remaining `tempValue` to
`result`. -/
def intPartLoop : List (List Char) → ℚ → ℚ → ℚ
  | [], r, t => r + t
  | tok :: rest, r, t =>
    if tok = "point".toList then r + t
    else if tok = "hundred".toList then intPartLoop rest r (t * 100)
    else
      match magnitudes.find? fun m => m.1 = tok with
      | some m => intPartLoop rest (r + t * m.2) 0
      | none => intPartLoop rest r (t + (parseNumericalWord tok : ℚ))

/-- The fractional loop of `wordToNumber`: `fractionalValue = 10·fv + digit`
per token with a count of decimal digits. -/
def fracLoop : List (List Char) → ℚ → Nat → ℚ × Nat
  | [], fv, d => (fv, d)
  | tok :: rest, fv, d =>
    fracLoop rest (fv * 10 + (parseNumericalWord tok : ℚ)) (d + 1)

/-- `wordToNumber` from `word_to_number.c`: integer part from the tokens up
to a `point` token, then — when the substring `"point"` occurs in the
original string (`strstr`) — the fractional digits after it divided by
`10^digits`; all `double` arithmetic embedded exactly in `ℚ`. -/
def wordToNumber (s : List Char) : ℚ :=
  let ip := intPartLoop (tokenize s) 0 0
  match strstrRem s "point".toList with
  | none => ip
  | some rest =>
    let fd := fracLoop (tokenize rest) 0 0
    ip + fd.1 / 10 ^ fd.2

/-- `volumeCallback` from `mosquitto_comms.c` acting on the stored
`global_volume` of `flac_playback.c`: the spoken value is converted with
`wordToNumber` and `setMusicVolume` is called iff `0 ≤ v ≤ 2.0`; otherwise
the stored volume is left unchanged and nothing else happens. -/
def volumeCallback (value : List Char) (globalVolume : ℚ) : ℚ :=
  let floatVol := wordToNumber value
  if 0 ≤ floatVol ∧ floatVol ≤ 2 then floatVol else globalVolume

/-- C9: the converted value is applied as the music volume iff it lies in
`[0, 2]`; the boundary `2.0` (spoken "two") is accepted, `2.01` (spoken
"two point zero one") is rejected, and any out-of-range value leaves the
stored volume unchanged. -/
theorem C9_volume_range (value : List Char) (vol : ℚ) :
    (0 ≤ wordToNumber value ∧ wordToNumber value ≤ 2 →
      volumeCallback value vol = wordToNumber value) ∧
    (¬(0 ≤ wordToNumber value ∧ wordToNumber value ≤ 2) →
      volumeCallback value vol = vol) ∧
    wordToNumber "two".toList = 2 ∧
    volumeCallback "two".toList vol = 2 ∧
    wordToNumber "two point zero one".toList = 201 / 100 ∧
    volumeCallback "two point zero one".toList vol = vol := by
  have h2 : wordToNumber "two".toList = 2 := by
    simp [wordToNumber, tokenize, tokenizeAux, strstrRem, intPartLoop,
      magnitudes, parseNumericalWord, pnwLoop, unitsWords, tensWords,
      teensWords]
  have h201 : wordToNumber "two point zero one".toList = 201 / 100 := by
    simp [wordToNumber, tokenize, tokenizeAux, strstrRem, intPartLoop,
      fracLoop, magnitudes, parseNumericalWord, pnwLoop, unitsWords,
      tensWords, teensWords]
    norm_num
  refine ⟨?_, ?_, h2, ?_, h201, ?_⟩
  · intro h
    simp [volumeCallback, h]
  · intro h
    simp only [volumeCallback]
    rw [if_neg h]
  · simp only [volumeCallback]
    rw [h2]
    norm_num
  · simp only [volumeCallback]
    rw [h201]
    norm_num

/-- Witness for `C9_volume_range`: "one" (in range) is applied; "three"
(out of range) leaves the stored volume unchanged. -/
theorem C9_volume_range_witness :
    volumeCallback "one".toList (1 / 2) = wordToNumber "one".toList ∧
    volumeCallback "three".toList (1 / 2) = 1 / 2 :=
  ⟨(C9_volume_range "one".toList (1 / 2)).1 (by
      constructor <;>
        simp [wordToNumber, tokenize, tokenizeAux, strstrRem, intPartLoop,
          magnitudes, parseNumericalWord, pnwLoop, unitsWords, tensWords,
          teensWords]),
   (C9_volume_range "three".toList (1 / 2)).2.1 (by
      simp only [not_and, not_le]
      intro _
      simp [wordToNumber, tokenize, tokenizeAux, strstrRem, intPartLoop,
        magnitudes, parseNumericalWord, pnwLoop, unitsWords, tensWords,
        teensWords]
      norm_num)⟩

end Dawn
